import Mathlib

/-!
Shallow embedding of the WaterGun aiming / motion-planning pipeline
(repository louishobson/WaterGun), translated from the C++ sources:
  - include/watergun/tracker.h, src/watergun/tracker.cpp
  - include/watergun/aimer.h, src/watergun/aimer.cpp (the current, double-based version)
  - include/watergun/controller.h, src/watergun/controller.cpp
  - include/watergun/stepper.h, src/watergun/stepper.cpp

Modelling conventions:
  - IEEE doubles are modelled as exact rationals (ℚ).  Decimal literals of the
    source (9.81, 4.905, 1e-6, ...) become the corresponding exact rationals.
  - `clock::time_point` and `clock::duration` are both modelled as ℚ, measured
    in seconds (`duration_to_seconds` of the source is then the identity).
  - The closed-form complex quartic solver (`aimer::solve_quartic`, a numeric
    routine over `std::complex<double>`) and `std::asin` are transcendental
    floating-point computations; they are kept abstract as parameters of the
    embedding (`quartic_oracle`), and theorems quantify over them.  A complex
    number is modelled as a pair (re, im) : ℚ × ℚ.
  - `std::isnan` applied to a value that is an exact rational is `false`:
    NaN is not representable in the exact-arithmetic model, and on the code
    paths modelled here (finite user coordinates, a finite root) the yaw field
    tested by `choose_target` is always a finite double in the C++ code too.
-/

namespace watergun

/-- vector3d of include/watergun/tracker.h: three components with
component-wise arithmetic; equality is component-wise (defaulted in C++). -/
structure vector3d where
  x : ℚ
  y : ℚ
  z : ℚ
deriving DecidableEq, Repr

/-- Default construction `vector3d {}`: all components 0. -/
def vector3d.zero : vector3d := ⟨0, 0, 0⟩

/-- Component-wise addition (`vector3d::operator+`). -/
def vector3d.add (a b : vector3d) : vector3d := ⟨a.x + b.x, a.y + b.y, a.z + b.z⟩

/-- Component-wise subtraction (`vector3d::operator-`). -/
def vector3d.sub (a b : vector3d) : vector3d := ⟨a.x - b.x, a.y - b.y, a.z - b.z⟩

/-- Scalar multiplication (`vector3d::operator* ( double scalar )`). -/
def vector3d.smul (a : vector3d) (s : ℚ) : vector3d := ⟨a.x * s, a.y * s, a.z * s⟩

/-- tracked_user of include/watergun/tracker.h: id, timestamp, polar
center of mass (x = yaw angle, y = height, z = ground range) and its rate. -/
structure tracked_user where
  id : ℕ
  timestamp : ℚ
  com : vector3d
  com_rate : vector3d
deriving DecidableEq, Repr

/-- Default-constructed tracked user (timestamp zero, zero vectors). -/
def default_tracked_user : tracked_user := ⟨0, 0, vector3d.zero, vector3d.zero⟩

/-- gun_position of include/watergun/aimer.h. -/
structure gun_position where
  yaw : ℚ
  pitch : ℚ
deriving DecidableEq, Repr

/-- single_movement of include/watergun/aimer.h: duration, start timestamp,
yaw rate and ending pitch. -/
structure single_movement where
  duration : ℚ
  timestamp : ℚ
  yaw_rate : ℚ
  ending_pitch : ℚ
deriving DecidableEq, Repr

/-- watergun::clamp of include/watergun/utility.h:
`std::max ( lower, std::min ( value, upper ) )`. -/
def clamp (value lower upper : ℚ) : ℚ := max lower (min value upper)

/-- std::copysign: the magnitude of `a` with the sign of `b`
(`b = 0` keeps the positive sign, as for IEEE +0). -/
def copysign (a b : ℚ) : ℚ := if b < 0 then -|a| else |a|

/-- tracker::large_duration: `std::chrono::hours { 24 }`, in seconds. -/
def large_duration : ℚ := 86400

/-- tracker::large_time_point: `clock::now () + large_duration` at static
initialisation.  The construction-time clock reading is irrelevant to the
claims; it is taken as 0, so the time point is just `large_duration`. -/
def large_time_point : ℚ := large_duration

/-- tracker::zero_time_point. -/
def zero_time_point : ℚ := 0

/-- tracker::zero_duration. -/
def zero_duration : ℚ := 0

/-- The abstract numeric routines of the aimer: the closed-form complex
quartic solver (aimer.cpp `solve_quartic`, returning four complex roots
modelled as (re, im) pairs), `std::asin`, and the double constant `M_PI / 4`
used for the unreachable sentinel.  They are floating-point numerics, kept
abstract; every theorem quantifies over them. -/
structure quartic_oracle where
  solve_quartic : ℚ → ℚ → ℚ → ℚ → ℚ → List (ℚ × ℚ)
  asin : ℚ → ℚ
  quarter_pi : ℚ

/-- Aimer configuration: the constructor parameters of watergun::aimer
together with the camera constants read by the tracker. -/
structure aimer_config where
  water_rate : ℚ
  air_resistance : ℚ
  max_yaw_velocity : ℚ
  max_yaw_acceleration : ℚ
  aim_period : ℚ
  camera_h_fov : ℚ
  camera_depth : ℚ

/-- std::isnan on a value of the exact-rational model of doubles: always
false, since NaN is not representable by a rational and the yaw values the
code tests are built from finite inputs by +, * only. -/
def isnan_q (_ : ℚ) : Bool := false

/-- One step of the root-selection loop of aimer::calculate_aim
(aimer.cpp lines 260-262): keep `time` (None models the INFINITY start)
unless the root has |imaginary| < 1e-6, positive real part, and real part
smaller than the current `time` (any real part beats INFINITY). -/
def select_time_step (t : Option ℚ) (r : ℚ × ℚ) : Option ℚ :=
  match t with
  | none => if |r.2| < 1 / 1000000 ∧ 0 < r.1 then some r.1 else none
  | some tv => if (|r.2| < 1 / 1000000 ∧ 0 < r.1) ∧ r.1 < tv then some r.1 else some tv

/-- The root-selection loop of aimer::calculate_aim: fold over the roots,
starting from INFINITY (modelled as `none`). -/
def select_time (roots : List (ℚ × ℚ)) : Option ℚ :=
  roots.foldl select_time_step none

/-- A root passes the filter of the selection loop: imaginary part smaller
than 1e-6 in magnitude and strictly positive real part. -/
def qualifies (r : ℚ × ℚ) : Prop := |r.2| < 1 / 1000000 ∧ 0 < r.1

instance (r : ℚ × ℚ) : Decidable (qualifies r) := by
  unfold qualifies; infer_instance

/-- aimer::calculate_aim of src/watergun/aimer.cpp (lines 245-269, the
current version): handle the user-at-camera case, solve the time quartic,
select the smallest positive (approximately) real root, and either return
the unreachable sentinel { user yaw, π/4 } or the aiming angles. -/
def calculate_aim (cfg : aimer_config) (or : quartic_oracle) (user : tracked_user) : gun_position :=
  if user.com.z * user.com.z + user.com.y * user.com.y = 0 then ⟨user.com.x, 0⟩ else
  let roots := or.solve_quartic
    (cfg.air_resistance * cfg.air_resistance * (1/4) + (981/100) * (981/100) * (1/4))
    (cfg.air_resistance * user.com_rate.z + (981/100) * user.com_rate.y)
    (cfg.air_resistance * user.com.z + user.com_rate.z * user.com_rate.z
      + (981/100) * user.com.y + user.com_rate.y * user.com_rate.y
      - cfg.water_rate * cfg.water_rate)
    (user.com.z * user.com_rate.z * 2 + user.com.y * user.com_rate.y * 2)
    (user.com.z * user.com.z + user.com.y * user.com.y)
  match select_time roots with
  | none => ⟨user.com.x, or.quarter_pi⟩
  | some time =>
      ⟨user.com.x + user.com_rate.x * time,
       or.asin (clamp ((user.com.y + user.com_rate.y * time + (981/200) * time * time)
                        / (cfg.water_rate * time)) (-1) 1)⟩


/-- Unfolding equation of the selection step on the INFINITY accumulator. -/
theorem step_none (r : ℚ × ℚ) :
    select_time_step none r = if |r.2| < 1 / 1000000 ∧ 0 < r.1 then some r.1 else none := rfl

/-- Unfolding equation of the selection step on a finite accumulator. -/
theorem step_some (tv : ℚ) (r : ℚ × ℚ) :
    select_time_step (some tv) r =
      if (|r.2| < 1 / 1000000 ∧ 0 < r.1) ∧ r.1 < tv then some r.1 else some tv := rfl

/-- The selection step of a qualifying root never yields None, and the result
is at most the root's real part and at most any finite accumulator. -/
theorem step_cases (a : Option ℚ) (r : ℚ × ℚ) :
    select_time_step a r = a ∨ (qualifies r ∧ select_time_step a r = some r.1) := by
  cases a with
  | none =>
      rw [step_none]
      by_cases hq : |r.2| < 1 / 1000000 ∧ 0 < r.1
      · exact Or.inr ⟨⟨hq.1, hq.2⟩, by rw [if_pos hq]⟩
      · exact Or.inl (by rw [if_neg hq])
  | some tv =>
      rw [step_some]
      by_cases hc : (|r.2| < 1 / 1000000 ∧ 0 < r.1) ∧ r.1 < tv
      · exact Or.inr ⟨⟨hc.1.1, hc.1.2⟩, by rw [if_pos hc]⟩
      · exact Or.inl (by rw [if_neg hc])

/-- Characterisation of the selection fold, with a general accumulator: the
fold returns None exactly when it started from None and no root qualifies;
and a returned time either was the accumulator or is the real part of a
qualifying root, is a lower bound on all qualifying real parts, and is at
most the starting accumulator. -/
theorem select_fold_char (l : List (ℚ × ℚ)) : ∀ a : Option ℚ,
    (l.foldl select_time_step a = none ↔ a = none ∧ ∀ r ∈ l, ¬ qualifies r) ∧
    (∀ v, l.foldl select_time_step a = some v →
      (a = some v ∨ ∃ r ∈ l, qualifies r ∧ r.1 = v) ∧
      (∀ r ∈ l, qualifies r → v ≤ r.1) ∧
      (∀ w, a = some w → v ≤ w)) := by
  induction l with
  | nil =>
      intro a
      refine ⟨by simp, ?_⟩
      intro v h
      simp only [List.foldl_nil] at h
      refine ⟨Or.inl h, by simp, ?_⟩
      intro w hw
      rw [h] at hw
      exact le_of_eq (Option.some.inj hw)
  | cons r rs ih =>
      intro a
      constructor
      · -- the None case
        rw [List.foldl_cons, (ih (select_time_step a r)).1]
        constructor
        · rintro ⟨ha, hrs⟩
          rcases step_cases a r with he | ⟨hq, he⟩
          · rw [he] at ha
            subst ha
            refine ⟨rfl, ?_⟩
            intro r' hr'
            rcases List.mem_cons.mp hr' with h1 | h2
            · subst h1
              -- the step kept None, so r cannot qualify
              intro hqq
              rcases step_cases (none : Option ℚ) r' with he2 | ⟨_, he2⟩
              · rw [step_none, if_pos ⟨hqq.1, hqq.2⟩] at he2; cases he2
              · rw [he2] at he; cases he
            · exact hrs r' h2
          · rw [he] at ha; cases ha
        · rintro ⟨ha, hall⟩
          subst ha
          have hq : ¬ qualifies r := hall r (List.mem_cons_self r rs)
          have he : select_time_step none r = none := by
            rw [step_none, if_neg (fun hc => hq ⟨hc.1, hc.2⟩)]
          rw [he]
          exact ⟨rfl, fun r' hm => hall r' (List.mem_cons_of_mem r hm)⟩
      · -- the Some case
        intro v h
        rw [List.foldl_cons] at h
        obtain ⟨hsrc, hmin, hacc⟩ := (ih (select_time_step a r)).2 v h
        have hstep_le : ∀ w, a = some w → ∀ u, select_time_step a r = some u → u ≤ w := by
          intro w hw u hu
          subst hw
          rw [step_some] at hu
          by_cases hc : (|r.2| < 1 / 1000000 ∧ 0 < r.1) ∧ r.1 < w
          · rw [if_pos hc] at hu
            exact le_of_lt ((Option.some.inj hu) ▸ hc.2)
          · rw [if_neg hc] at hu
            exact le_of_eq (Option.some.inj hu).symm
        refine ⟨?_, ?_, ?_⟩
        · -- source of the value
          rcases hsrc with he | ⟨r', hm, hq', he'⟩
          · rcases step_cases a r with he2 | ⟨hq, he2⟩
            · exact Or.inl (he2 ▸ he)
            · rw [he2] at he
              exact Or.inr ⟨r, List.mem_cons_self r rs, hq, Option.some.inj he⟩
          · exact Or.inr ⟨r', List.mem_cons_of_mem r hm, hq', he'⟩
        · -- minimality over the whole list
          intro r' hr' hq'
          rcases List.mem_cons.mp hr' with h1 | h2
          · subst h1
            cases a with
            | none =>
                have he : select_time_step none r' = some r'.1 := by
                  rw [step_none, if_pos ⟨hq'.1, hq'.2⟩]
                exact hacc r'.1 he
            | some tv =>
                by_cases hlt : r'.1 < tv
                · have he : select_time_step (some tv) r' = some r'.1 := by
                    rw [step_some, if_pos ⟨⟨hq'.1, hq'.2⟩, hlt⟩]
                  exact hacc r'.1 he
                · have he : select_time_step (some tv) r' = some tv := by
                    rw [step_some, if_neg (fun hc => hlt hc.2)]
                  exact le_trans (hacc tv he) (le_of_not_lt hlt)
          · exact hmin r' h2 hq'
        · -- bounded by the starting accumulator
          intro w hw
          subst hw
          rcases step_cases (some w) r with he | ⟨_, he⟩
          · exact hacc w (by rw [he])
          · refine le_trans (hacc r.1 he) ?_
            rw [step_some] at he
            by_cases hc : (|r.2| < 1 / 1000000 ∧ 0 < r.1) ∧ r.1 < w
            · exact le_of_lt hc.2
            · rw [if_neg hc] at he
              exact le_of_eq (Option.some.inj he).symm

/-- select_time never invents a root: a selected time is the real part of a
qualifying root of the list. -/
theorem select_time_mem (roots : List (ℚ × ℚ)) (t : ℚ) :
    select_time roots = some t → ∃ r ∈ roots, qualifies r ∧ r.1 = t := by
  intro h
  rcases ((select_fold_char roots none).2 t h).1 with he | hr
  · cases he
  · exact hr

/-- select_time returns None exactly when no root qualifies. -/
theorem select_time_none_iff (roots : List (ℚ × ℚ)) :
    select_time roots = none ↔ ∀ r ∈ roots, ¬ qualifies r := by
  unfold select_time
  rw [(select_fold_char roots none).1]
  simp

/-- The selected time is minimal among the qualifying real parts. -/
theorem select_time_min (roots : List (ℚ × ℚ)) (t : ℚ) :
    select_time roots = some t → ∀ r ∈ roots, qualifies r → t ≤ r.1 :=
  fun h => ((select_fold_char roots none).2 t h).2.1


/-- The score computed by aimer::choose_target (aimer.cpp line 297) for one
user: centred is better, closer is better, approaching is better. -/
def user_score (cfg : aimer_config) (or : quartic_oracle) (user : tracked_user) : ℚ :=
  |(calculate_aim cfg or user).yaw| / (cfg.camera_h_fov / 2) * (-2) + 1
    + user.com.z / cfg.camera_depth * (-2) + 1
    + user.com_rate.z / 7 * (-1)

/-- One iteration of the loop of aimer::choose_target (aimer.cpp lines
291-301): skip the user when std::isnan(aim.yaw); otherwise update the best
score and best user when the score strictly improves. -/
def choose_target_step (cfg : aimer_config) (or : quartic_oracle)
    (p : ℚ × tracked_user) (user : tracked_user) : ℚ × tracked_user :=
  if isnan_q (calculate_aim cfg or user).yaw then p
  else if p.1 < user_score cfg or user then (user_score cfg or user, user) else p

/-- aimer::choose_target of src/watergun/aimer.cpp (lines 279-305): fold the
scoring loop over the users, starting from best_score = -100 and a
default-constructed best user. -/
def choose_target (cfg : aimer_config) (or : quartic_oracle)
    (users : List tracked_user) : tracked_user :=
  (users.foldl (choose_target_step cfg or) (-100, default_tracked_user)).2

/-- tracker::project_tracked_user of src/watergun/tracker.cpp (lines
152-161): move the centre of mass by its rate times the elapsed time, keep
the rate, update the timestamp. -/
def project_tracked_user (user : tracked_user) (timestamp : ℚ) : tracked_user :=
  ⟨user.id, timestamp,
   user.com.add (user.com_rate.smul (timestamp - user.timestamp)),
   user.com_rate⟩

/-- The quartic coefficients exactly as the specification states them:
A = (a² + g²)/4, B = a·ż + g·ẏ, C = a·z₀ + ż² + g·y₀ + ẏ² − v²,
D = 2·z₀·ż + 2·y₀·ẏ, E = z₀² + y₀², with g = 9.81; applied to the abstract
solver.  calculate_aim is proved to solve exactly this quartic. -/
def spec_quartic_roots (cfg : aimer_config) (or : quartic_oracle)
    (user : tracked_user) : List (ℚ × ℚ) :=
  or.solve_quartic
    ((cfg.air_resistance ^ 2 + (981/100) ^ 2) / 4)
    (cfg.air_resistance * user.com_rate.z + (981/100) * user.com_rate.y)
    (cfg.air_resistance * user.com.z + user.com_rate.z ^ 2
      + (981/100) * user.com.y + user.com_rate.y ^ 2 - cfg.water_rate ^ 2)
    (2 * user.com.z * user.com_rate.z + 2 * user.com.y * user.com_rate.y)
    (user.com.z ^ 2 + user.com.y ^ 2)

/-- The roots calculate_aim actually feeds to the selection loop are the
roots of the specification's quartic: the numeric expressions coincide. -/
theorem calculate_aim_roots_eq (cfg : aimer_config) (or : quartic_oracle) (u : tracked_user) :
    or.solve_quartic
      (cfg.air_resistance * cfg.air_resistance * (1/4) + (981/100) * (981/100) * (1/4))
      (cfg.air_resistance * u.com_rate.z + (981/100) * u.com_rate.y)
      (cfg.air_resistance * u.com.z + u.com_rate.z * u.com_rate.z
        + (981/100) * u.com.y + u.com_rate.y * u.com_rate.y
        - cfg.water_rate * cfg.water_rate)
      (u.com.z * u.com_rate.z * 2 + u.com.y * u.com_rate.y * 2)
      (u.com.z * u.com.z + u.com.y * u.com.y)
    = spec_quartic_roots cfg or u := by
  unfold spec_quartic_roots
  congr 1 <;> ring


/-- C9: for every tracked user and all timestamps t1 and t2, projecting to
t1 and then to t2 equals projecting directly to t2, component-wise and
exactly, over the exact-arithmetic model: projection moves com by com_rate
times the elapsed time and leaves com_rate unchanged. -/
theorem project_tracked_user_compose (u : tracked_user) (t1 t2 : ℚ) :
    project_tracked_user (project_tracked_user u t1) t2 = project_tracked_user u t2 := by
  unfold project_tracked_user vector3d.add vector3d.smul
  refine congrArg (tracked_user.mk u.id t2 · u.com_rate) ?_
  have hx : u.com.x + u.com_rate.x * (t1 - u.timestamp) + u.com_rate.x * (t2 - t1)
      = u.com.x + u.com_rate.x * (t2 - u.timestamp) := by ring
  have hy : u.com.y + u.com_rate.y * (t1 - u.timestamp) + u.com_rate.y * (t2 - t1)
      = u.com.y + u.com_rate.y * (t2 - u.timestamp) := by ring
  have hz : u.com.z + u.com_rate.z * (t1 - u.timestamp) + u.com_rate.z * (t2 - t1)
      = u.com.z + u.com_rate.z * (t2 - u.timestamp) := by ring
  rw [hx, hy, hz]

/-- C1: for every tracked user whose squared height plus squared ground
range is non-zero, calculate_aim solves the quartic with the coefficients
A = (a²+g²)/4, B = a·ż+g·ẏ, C = a·z₀+ż²+g·y₀+ẏ²−v², D = 2·z₀·ż+2·y₀·ẏ,
E = z₀²+y₀² (the roots are spec_quartic_roots); when no root has imaginary
part below 1e-6 in magnitude and strictly positive real part it returns the
unreachable sentinel { com.yaw, π/4 }; otherwise it returns, for t the
smallest qualifying real part, yaw = com.yaw + yaw_rate·t and pitch = asin
of (y₀+ẏ·t+g·t²/2)/(v·t) clamped to [−1,+1]. -/
theorem calculate_aim_spec (cfg : aimer_config) (or : quartic_oracle) (u : tracked_user)
    (h : u.com.z * u.com.z + u.com.y * u.com.y ≠ 0) :
    ((∀ r ∈ spec_quartic_roots cfg or u, ¬ qualifies r) →
        calculate_aim cfg or u = ⟨u.com.x, or.quarter_pi⟩) ∧
    (∀ r0 ∈ spec_quartic_roots cfg or u, qualifies r0 →
        ∃ t, (∃ r ∈ spec_quartic_roots cfg or u, qualifies r ∧ r.1 = t) ∧
          (∀ r ∈ spec_quartic_roots cfg or u, qualifies r → t ≤ r.1) ∧
          calculate_aim cfg or u =
            ⟨u.com.x + u.com_rate.x * t,
             or.asin (clamp ((u.com.y + u.com_rate.y * t + (981/200) * t * t)
               / (cfg.water_rate * t)) (-1) 1)⟩) := by
  have hca : calculate_aim cfg or u =
      (match select_time (spec_quartic_roots cfg or u) with
       | none => (⟨u.com.x, or.quarter_pi⟩ : gun_position)
       | some time =>
          ⟨u.com.x + u.com_rate.x * time,
           or.asin (clamp ((u.com.y + u.com_rate.y * time + (981/200) * time * time)
             / (cfg.water_rate * time)) (-1) 1)⟩) := by
    unfold calculate_aim
    rw [if_neg h, calculate_aim_roots_eq]
  constructor
  · intro hnone
    rw [hca, (select_time_none_iff _).mpr hnone]
  · intro r0 hr0 hq0
    cases hsel : select_time (spec_quartic_roots cfg or u) with
    | none => exact absurd hq0 ((select_time_none_iff _).mp hsel r0 hr0)
    | some t =>
        refine ⟨t, select_time_mem _ t hsel, select_time_min _ t hsel, ?_⟩
        rw [hca, hsel]

/-- Concrete oracle for witnesses: four fixed roots, identity asin. -/
def or_w1 : quartic_oracle :=
  ⟨fun _ _ _ _ _ => [(2, 0), (1, 0), (-1, 0), (1/2, 1)], fun q => q, 11/14⟩

/-- Concrete aimer configuration for witnesses. -/
def cfg_w1 : aimer_config := ⟨10, 0, 1, 1, 1/30, 1, 10⟩

/-- Concrete tracked user for witnesses: yaw 1/2, height 0, range 5, at rest. -/
def user_w1 : tracked_user := ⟨1, 0, ⟨1/2, 0, 5⟩, ⟨0, 0, 0⟩⟩

/-- Witness for C1: the hypothesis holds at the concrete user and the
conclusion of calculate_aim_spec is established there by the theorem. -/
theorem calculate_aim_spec_witness :
    (user_w1.com.z * user_w1.com.z + user_w1.com.y * user_w1.com.y ≠ 0) ∧
    (((∀ r ∈ spec_quartic_roots cfg_w1 or_w1 user_w1, ¬ qualifies r) →
        calculate_aim cfg_w1 or_w1 user_w1 = ⟨user_w1.com.x, or_w1.quarter_pi⟩) ∧
    (∀ r0 ∈ spec_quartic_roots cfg_w1 or_w1 user_w1, qualifies r0 →
        ∃ t, (∃ r ∈ spec_quartic_roots cfg_w1 or_w1 user_w1, qualifies r ∧ r.1 = t) ∧
          (∀ r ∈ spec_quartic_roots cfg_w1 or_w1 user_w1, qualifies r → t ≤ r.1) ∧
          calculate_aim cfg_w1 or_w1 user_w1 =
            ⟨user_w1.com.x + user_w1.com_rate.x * t,
             or_w1.asin (clamp ((user_w1.com.y + user_w1.com_rate.y * t + (981/200) * t * t)
               / (cfg_w1.water_rate * t)) (-1) 1)⟩)) :=
  ⟨by norm_num [user_w1], calculate_aim_spec cfg_w1 or_w1 user_w1 (by norm_num [user_w1])⟩

/-- Concrete oracle whose four roots all fail the selection filter, making
every user unreachable for calculate_aim. -/
def or_unreachable : quartic_oracle :=
  ⟨fun _ _ _ _ _ => [(-1, 0), (-2, 0), (0, 5), (-3, 0)], fun q => q, 11/14⟩

/-- Concrete configuration for the unreachable-user scenario (muzzle speed
3 m/s, h_fov 1, max depth 10). -/
def cfg_c2 : aimer_config := ⟨3, 0, 1, 1, 1/30, 1, 10⟩

/-- Concrete user for the unreachable-user scenario: yaw 3/10, range 5. -/
def user_c2 : tracked_user := ⟨1, 0, ⟨3/10, 0, 5⟩, ⟨0, 0, 0⟩⟩

/-- C2: the claim fails on the code.  calculate_aim returns the unreachable
sentinel { com.yaw, π/4 } for this user, whose yaw field is the finite value
3/10, yet choose_target — whose skip test is std::isnan(aim.yaw) — still
scores the user and returns it as the chosen target instead of skipping it. -/
theorem choose_target_scores_unreachable :
    calculate_aim cfg_c2 or_unreachable user_c2 = ⟨3/10, or_unreachable.quarter_pi⟩ ∧
    choose_target cfg_c2 or_unreachable [user_c2] = user_c2 := by
  constructor <;>
    norm_num [calculate_aim, select_time, select_time_step, choose_target,
      choose_target_step, isnan_q, user_score, clamp, abs_of_nonneg,
      cfg_c2, or_unreachable, user_c2, default_tracked_user]


/-- Characterisation of the scoring fold of choose_target with a general
accumulator (b, v): either no user strictly beats b and the accumulator is
returned, or the list splits around the first user attaining the maximum
score, which is returned together with its score. -/
theorem choose_fold_char (cfg : aimer_config) (or : quartic_oracle)
    (l : List tracked_user) : ∀ (b : ℚ) (v : tracked_user),
    (l.foldl (choose_target_step cfg or) (b, v) = (b, v) ∧
       ∀ u ∈ l, user_score cfg or u ≤ b) ∨
    (∃ l1 u l2, l = l1 ++ u :: l2 ∧
       l.foldl (choose_target_step cfg or) (b, v) = (user_score cfg or u, u) ∧
       b < user_score cfg or u ∧
       (∀ w ∈ l1, user_score cfg or w < user_score cfg or u) ∧
       (∀ w ∈ l2, user_score cfg or w ≤ user_score cfg or u)) := by
  induction l with
  | nil => intro b v; exact Or.inl ⟨rfl, by simp⟩
  | cons a as ih =>
      intro b v
      have hstep : choose_target_step cfg or (b, v) a =
          if b < user_score cfg or a then (user_score cfg or a, a) else (b, v) := by
        unfold choose_target_step isnan_q
        simp
      by_cases hlt : b < user_score cfg or a
      · rw [List.foldl_cons, hstep, if_pos hlt]
        rcases ih (user_score cfg or a) a with ⟨heq, hall⟩ | ⟨l1, u, l2, hsplit, heq, hgt, h1, h2⟩
        · exact Or.inr ⟨[], a, as, rfl, heq, hlt, by simp, hall⟩
        · exact Or.inr ⟨a :: l1, u, l2, by rw [hsplit]; rfl, heq,
            lt_trans hlt hgt, by
              intro w hw
              rcases List.mem_cons.mp hw with he | hm
              · subst he; exact hgt
              · exact h1 w hm, h2⟩
      · rw [List.foldl_cons, hstep, if_neg hlt]
        rcases ih b v with ⟨heq, hall⟩ | ⟨l1, u, l2, hsplit, heq, hgt, h1, h2⟩
        · refine Or.inl ⟨heq, ?_⟩
          intro w hw
          rcases List.mem_cons.mp hw with he | hm
          · subst he; exact le_of_not_lt hlt
          · exact hall w hm
        · exact Or.inr ⟨a :: l1, u, l2, by rw [hsplit]; rfl, heq, hgt, by
            intro w hw
            rcases List.mem_cons.mp hw with he | hm
            · subst he; exact lt_of_le_of_lt (le_of_not_lt hlt) hgt
            · exact h1 w hm, h2⟩

/-- Concrete scenario S3: user A at yaw 0.3, range 4, at rest. -/
def user_a3 : tracked_user := ⟨1, 0, ⟨3/10, 0, 4⟩, ⟨0, 0, 0⟩⟩

/-- Concrete scenario S3: user B at yaw 0, range 6, approaching at 3 m/s. -/
def user_b3 : tracked_user := ⟨2, 0, ⟨0, 0, 6⟩, ⟨0, 0, -3⟩⟩

/-- C3 (amended): choose_target scores every user (the isnan skip test never
fires, so reachability does not restrict the maximum); it returns the first
user attaining the maximum score when that maximum exceeds the initial best
score of −100, and a default-constructed user when the list is empty or no
score exceeds −100.  In the S3 instance (h_fov 1, max_depth 10) it returns
user B. -/
theorem choose_target_first_max :
    (∀ (cfg : aimer_config) (or : quartic_oracle) (users : List tracked_user),
      (choose_target cfg or users = default_tracked_user ∧
         ∀ u ∈ users, user_score cfg or u ≤ -100) ∨
      (∃ l1 u l2, users = l1 ++ u :: l2 ∧ choose_target cfg or users = u ∧
         -100 < user_score cfg or u ∧
         (∀ w ∈ l1, user_score cfg or w < user_score cfg or u) ∧
         (∀ w ∈ users, user_score cfg or w ≤ user_score cfg or u))) ∧
    choose_target cfg_w1 or_w1 [user_a3, user_b3] = user_b3 := by
  constructor
  · intro cfg or users
    rcases choose_fold_char cfg or users (-100) default_tracked_user with
      ⟨heq, hall⟩ | ⟨l1, u, l2, hsplit, heq, hgt, h1, h2⟩
    · exact Or.inl ⟨by unfold choose_target; rw [heq], hall⟩
    · refine Or.inr ⟨l1, u, l2, hsplit, by unfold choose_target; rw [heq], hgt, h1, ?_⟩
      intro w hw
      rw [hsplit] at hw
      rcases List.mem_append.mp hw with hm | hm
      · exact le_of_lt (h1 w hm)
      · rcases List.mem_cons.mp hm with he | hm2
        · subst he; exact le_refl _
        · exact h2 w hm2
  · norm_num [choose_target, choose_target_step, isnan_q, user_score, calculate_aim,
      select_time, select_time_step, clamp, abs_of_nonneg, cfg_w1, or_w1,
      user_a3, user_b3, default_tracked_user]

/-- C3 counterexample: a single-user list where the user is unreachable
(every root of its quartic fails the selection filter, so calculate_aim
returns the sentinel), yet choose_target returns that user, not a
default-constructed one — refuting the claim's "if no user is reachable it
returns a default-constructed user". -/
theorem choose_target_no_reachable_not_default :
    (∀ r ∈ spec_quartic_roots cfg_c2 or_unreachable user_c2, ¬ qualifies r) ∧
    choose_target cfg_c2 or_unreachable [user_c2] ≠ default_tracked_user := by
  constructor
  · intro r hr
    have : r ∈ [((-1 : ℚ), (0 : ℚ)), (-2, 0), (0, 5), (-3, 0)] := hr
    fin_cases this <;> norm_num [qualifies]
  · norm_num [choose_target, choose_target_step, isnan_q, user_score, calculate_aim,
      select_time, select_time_step, clamp, abs_of_nonneg, cfg_c2, or_unreachable,
      user_c2, default_tracked_user]


/-- The fixed horizon of aimer::calculate_future_movements
(aimer.cpp line 325: `int target_aim_periods = 150`). -/
def target_aim_periods : ℕ := 150

/-- The iterated projection maintained by the constraint loop of
calculate_future_movements (aimer.cpp lines 341 and 373): each step projects
the running user one aim period past its own timestamp. -/
def proj_iter (period : ℚ) (u : tracked_user) : ℕ → tracked_user
  | 0 => u
  | k + 1 =>
      let p := proj_iter period u k
      project_tracked_user p (p.timestamp + period)

/-- Projecting by the rate for zero elapsed time returns the same user once
the timestamp is restored, so the iterated projection is a single direct
projection (exact arithmetic). -/
theorem proj_iter_eq (period : ℚ) (u : tracked_user) (k : ℕ) :
    proj_iter period u k = project_tracked_user u (u.timestamp + period * k) := by
  induction k with
  | zero =>
      unfold proj_iter project_tracked_user vector3d.add vector3d.smul
      cases u with
      | mk i ts c cr =>
          cases c with
          | mk cx cy cz =>
              simp only [tracked_user.mk.injEq, vector3d.mk.injEq]
              norm_num
  | succ k ih =>
      show project_tracked_user (proj_iter period u k)
          ((proj_iter period u k).timestamp + period) = _
      rw [ih]
      have hts : (project_tracked_user u (u.timestamp + period * k)).timestamp
          = u.timestamp + period * k := rfl
      rw [hts, project_tracked_user_compose]
      have harg : u.timestamp + period * k + period = u.timestamp + period * ((k : ℕ) + 1 : ℕ) := by
        push_cast
        ring
      rw [harg]

/-- The aim computed at the end of the constraint loop of
calculate_future_movements: after target_aim_periods iterations, `aim` holds
calculate_aim of the user projected target_aim_periods periods ahead. -/
def fm_final_aim (cfg : aimer_config) (or : quartic_oracle) (u : tracked_user) : gun_position :=
  calculate_aim cfg or (proj_iter cfg.aim_period u target_aim_periods)

/-- aimer::calculate_future_movements of src/watergun/aimer.cpp (lines
317-447), output stage (lines 434-447): the LP column solution is abstract
(x i models `clp_simplex.getColSolution () [ i ]`, the solver being the
external Clp library); record i of the output has duration = aim period,
timestamp = user.timestamp + aim_period·i, yaw_rate = x i, and ending_pitch
interpolated from current_movement.ending_pitch towards the final aim pitch. -/
def calculate_future_movements (cfg : aimer_config) (or : quartic_oracle)
    (x : ℕ → ℚ) (u : tracked_user) (current_movement : single_movement)
    (n : ℕ) : List single_movement :=
  (List.range (min target_aim_periods n)).map fun i : ℕ =>
    ⟨cfg.aim_period, u.timestamp + cfg.aim_period * (i : ℚ), x i,
     current_movement.ending_pitch +
       ((fm_final_aim cfg or u).pitch - current_movement.ending_pitch)
         * ((i : ℚ) + 1) / (target_aim_periods : ℚ)⟩

/-- C7 (amended): record i of calculate_future_movements has
duration = Δ, start timestamp = user.timestamp + Δ·i and yaw_rate = x i as
claimed, but its ending_pitch is NOT the aim pitch of period i+1: it is the
linear interpolation from current_movement.ending_pitch towards the pitch of
the aim at the end of the 150-period horizon,
calculate_aim(project(user, user.timestamp + Δ·150)).pitch. -/
theorem calculate_future_movements_fields (cfg : aimer_config) (or : quartic_oracle)
    (x : ℕ → ℚ) (u : tracked_user) (cur : single_movement) (n : ℕ)
    (i : ℕ) (hi : i < min target_aim_periods n) :
    (calculate_future_movements cfg or x u cur n)[i]? =
      some ⟨cfg.aim_period, u.timestamp + cfg.aim_period * (i : ℚ), x i,
        cur.ending_pitch +
          ((calculate_aim cfg or (project_tracked_user u
              (u.timestamp + cfg.aim_period * (target_aim_periods : ℚ)))).pitch
            - cur.ending_pitch) * ((i : ℚ) + 1) / (target_aim_periods : ℚ)⟩ := by
  unfold calculate_future_movements
  rw [List.getElem?_map, List.getElem?_range hi]
  unfold fm_final_aim
  rw [proj_iter_eq]
  rfl

/-- An idle current movement (the controller's initial plan entry). -/
def idle_movement : single_movement := ⟨0, 0, 0, 0⟩

/-- C7 counterexample: with the witness oracle (selected root t = 1,
identity asin) and the resting user at range 5, the aim pitch at every
period is 981/2000, so the claim predicts ending_pitch = 981/2000 for the
first record; the code emits the interpolated value 981/2000/150 = 327/100000
instead. -/
theorem calculate_future_movements_pitch_counterexample :
    calculate_future_movements cfg_w1 or_w1 (fun _ => 0) user_w1 idle_movement 1 =
      [⟨1/30, 0, 0, 327/100000⟩] ∧
    (calculate_aim cfg_w1 or_w1 (project_tracked_user user_w1
        (user_w1.timestamp + cfg_w1.aim_period * (0 + 1)))).pitch = 981/2000 ∧
    (327/100000 : ℚ) ≠ 981/2000 := by
  refine ⟨?_, ?_, by norm_num⟩
  · unfold calculate_future_movements fm_final_aim
    rw [proj_iter_eq]
    rw [show min target_aim_periods 1 = 1 from rfl,
      show List.range 1 = [0] from rfl, List.map_singleton]
    norm_num [target_aim_periods, calculate_aim, project_tracked_user,
      vector3d.add, vector3d.smul, select_time, select_time_step, clamp,
      abs_of_nonneg, cfg_w1, or_w1, user_w1, idle_movement]
  · norm_num [calculate_aim, project_tracked_user, vector3d.add, vector3d.smul,
      select_time, select_time_step, clamp, abs_of_nonneg, cfg_w1, or_w1, user_w1]


/-- The controller constructor's movement plan (controller.cpp lines 48-49):
an idle segment from the beginning of time and a search segment with yaw
rate search_yaw_velocity; the cursor is set to the search segment (index 1). -/
def initial_plan (search_yaw_velocity : ℚ) : List single_movement :=
  [⟨zero_duration, zero_time_point, 0, 0⟩,
   ⟨large_duration, large_time_point, search_yaw_velocity, 0⟩]

/-- The plan edit of the movement planner loop (controller.cpp lines
158-166): erase all segments after the cursor, splice the future movements
at the end, then append a terminal search segment whose yaw rate is
copysign(search_yaw_velocity, yaw rate of the plan's current back). -/
def plan_edit (search_yaw_velocity : ℚ) (plan : List single_movement)
    (cursor : ℕ) (future : List single_movement) : List single_movement :=
  let spliced := plan.take (cursor + 1) ++ future
  spliced ++ [⟨large_duration, large_time_point,
    copysign search_yaw_velocity (spliced.getLastD idle_movement).yaw_rate, 0⟩]

/-- The cursor advance of the movement planner loop (controller.cpp lines
174-178): increment the cursor, stamp the new current movement's timestamp
with now, and back-fill the previous segment's duration. -/
def plan_advance (plan : List single_movement) (cursor : ℕ) (now : ℚ) :
    List single_movement × ℕ :=
  let c := cursor + 1
  let cur := plan.getD c idle_movement
  let plan1 := plan.set c ⟨cur.duration, now, cur.yaw_rate, cur.ending_pitch⟩
  let prev := plan1.getD (c - 1) idle_movement
  let plan2 := plan1.set (c - 1) ⟨now - prev.timestamp, prev.timestamp, prev.yaw_rate, prev.ending_pitch⟩
  (plan2, c)

/-- controller::num_future_movements (controller.cpp line 43):
`std::chrono::seconds { 1 } / _aim_period`, an integer division of
durations. -/
def num_future_movements (cfg : aimer_config) : ℕ :=
  (⌊(1 : ℚ) / cfg.aim_period⌋).toNat

/-- The reachable (plan, cursor) states of the controller: the construction
plan, and closure under the planner-loop plan edit and cursor advance.  The
edit constructor requires the abstract LP column solution to respect the
column bounds loaded at aimer.cpp line 413 (±max_yaw_velocity), which is
what the Clp simplex guarantees for its column solution. -/
inductive plan_reachable (cfg : aimer_config) (or : quartic_oracle) (s : ℚ) :
    List single_movement × ℕ → Prop
  | init : plan_reachable cfg or s (initial_plan s, 1)
  | edit (p : List single_movement × ℕ) (x : ℕ → ℚ) (u : tracked_user)
      (cur : single_movement) (n : ℕ)
      (hx : ∀ i, |x i| ≤ cfg.max_yaw_velocity)
      (hp : plan_reachable cfg or s p) :
      plan_reachable cfg or s
        (plan_edit s p.1 p.2 (calculate_future_movements cfg or x u cur n), p.2)
  | advance (p : List single_movement × ℕ) (now : ℚ)
      (hp : plan_reachable cfg or s p) :
      plan_reachable cfg or s (plan_advance p.1 p.2 now)

/-- copysign keeps the magnitude of its first argument. -/
theorem abs_copysign (a b : ℚ) : |copysign a b| = |a| := by
  unfold copysign
  by_cases hb : b < 0
  · rw [if_pos hb, abs_neg, abs_abs]
  · rw [if_neg hb, abs_abs]

/-- getD of a list whose members all satisfy a predicate satisfies the
predicate when the default does. -/
theorem getD_pred (l : List single_movement) (i : ℕ) (d : single_movement)
    (P : single_movement → Prop) (hl : ∀ m ∈ l, P m) (hd : P d) :
    P (l.getD i d) := by
  cases h : l[i]? with
  | none => rw [List.getD_eq_getElem?_getD, h]; exact hd
  | some v =>
      rw [List.getD_eq_getElem?_getD, h]
      obtain ⟨hlt, he⟩ := List.getElem?_eq_some.mp h
      exact hl v (he ▸ List.getElem_mem hlt)

/-- C4 (amended): if the configured search yaw velocity does not exceed
max_yaw_velocity in magnitude, then in every reachable controller state
every movement of the plan — initial segments, LP-derived future movements
(whose yaw rates are LP columns bounded by ±max_yaw_velocity), and terminal
search segments alike — satisfies |yaw_rate| ≤ max_yaw_velocity. -/
theorem plan_yaw_rates_bounded (cfg : aimer_config) (or : quartic_oracle)
    (s : ℚ) (hs : |s| ≤ cfg.max_yaw_velocity)
    (p : List single_movement × ℕ) (hp : plan_reachable cfg or s p) :
    ∀ m ∈ p.1, |m.yaw_rate| ≤ cfg.max_yaw_velocity := by
  have h0 : (0 : ℚ) ≤ cfg.max_yaw_velocity := le_trans (abs_nonneg s) hs
  induction hp with
  | init =>
      intro m hm
      rcases List.mem_cons.mp hm with he | hm2
      · subst he; simpa using h0
      · rcases List.mem_cons.mp hm2 with he | hm3
        · subst he; simpa using hs
        · cases hm3
  | edit p x u cur n hx hp ih =>
      intro m hm
      unfold plan_edit at hm
      rcases List.mem_append.mp hm with hm1 | hm2
      · rcases List.mem_append.mp hm1 with hmt | hmf
        · exact ih m (List.take_subset _ _ hmt)
        · obtain ⟨i, _, he⟩ := List.mem_map.mp hmf
          rw [← he]
          exact hx i
      · rcases List.mem_cons.mp hm2 with he | hm3
        · subst he
          simpa [abs_copysign] using hs
        · cases hm3
  | advance p now hp ih =>
      intro m hm
      unfold plan_advance at hm
      simp only at hm
      rcases List.mem_or_eq_of_mem_set hm with hm1 | he
      · rcases List.mem_or_eq_of_mem_set hm1 with hm2 | he2
        · exact ih m hm2
        · subst he2
          exact getD_pred p.1 (p.2 + 1) idle_movement
            (fun w => |w.yaw_rate| ≤ cfg.max_yaw_velocity) ih (by simpa using h0)
      · subst he
        refine getD_pred _ (p.2 + 1 - 1) idle_movement
          (fun w => |w.yaw_rate| ≤ cfg.max_yaw_velocity) ?_ (by simpa using h0)
        intro w hw
        rcases List.mem_or_eq_of_mem_set hw with hm2 | he2
        · exact ih w hm2
        · subst he2
          exact getD_pred p.1 (p.2 + 1) idle_movement
            (fun w => |w.yaw_rate| ≤ cfg.max_yaw_velocity) ih (by simpa using h0)

/-- Witness for C4: with search velocity 1 and max_yaw_velocity 1, the
hypothesis holds and the bound is established for the construction plan. -/
theorem plan_yaw_rates_bounded_witness :
    (|(1 : ℚ)| ≤ cfg_w1.max_yaw_velocity) ∧
    ∀ m ∈ (initial_plan 1, 1).1, |m.yaw_rate| ≤ cfg_w1.max_yaw_velocity :=
  ⟨by norm_num [cfg_w1],
   plan_yaw_rates_bounded cfg_w1 or_w1 1 (by norm_num [cfg_w1])
     (initial_plan 1, 1) plan_reachable.init⟩

/-- C4 counterexample: with search_yaw_velocity 2 and max_yaw_velocity 1
the construction state is reachable, yet its terminal search segment has
|yaw_rate| = 2 > 1; nothing in the code relates the two configuration
parameters, refuting the unconditional claim. -/
theorem plan_yaw_rate_exceeds_max_counterexample :
    plan_reachable cfg_w1 or_w1 2 (initial_plan 2, 1) ∧
    ¬ ∀ m ∈ (initial_plan 2, 1).1, |m.yaw_rate| ≤ cfg_w1.max_yaw_velocity := by
  refine ⟨plan_reachable.init, ?_⟩
  intro hall
  have := hall ⟨large_duration, large_time_point, 2, 0⟩ (by simp [initial_plan])
  norm_num [cfg_w1] at this


/-- The number of consecutive search segments at the end of a plan, a search
segment being one with the arbitrarily large duration used by the
construction plan and the planner's terminal segment. -/
def trailing_search_count (p : List single_movement) : ℕ :=
  (p.reverse.takeWhile fun m => decide (m.duration = large_duration)).length

/-- A list ending in one search segment preceded by a non-search segment has
trailing search count exactly 1. -/
theorem trailing_one (l2 : List single_movement) (w m : single_movement)
    (hm : m.duration = large_duration) (hw : w.duration ≠ large_duration) :
    trailing_search_count ((l2 ++ [w]) ++ [m]) = 1 := by
  unfold trailing_search_count
  rw [List.reverse_append, List.reverse_append]
  simp [List.takeWhile_cons, hm, hw]

/-- C5 (amended): the construction plan ends with exactly one search
segment; and every planner-loop edit that appends at least one future
movement (n ≥ 1, with the aim period distinct from the large sentinel
duration) leaves the plan ending with exactly one search segment. -/
theorem plan_ends_with_one_search (cfg : aimer_config) (or : quartic_oracle)
    (s : ℚ) (x : ℕ → ℚ) (u : tracked_user) (cur : single_movement) (n : ℕ)
    (hn : 1 ≤ n) (hne : cfg.aim_period ≠ large_duration)
    (plan : List single_movement) (cursor : ℕ) :
    trailing_search_count (initial_plan s) = 1 ∧
    trailing_search_count
      (plan_edit s plan cursor (calculate_future_movements cfg or x u cur n)) = 1 := by
  constructor
  · unfold trailing_search_count initial_plan
    norm_num [List.takeWhile_cons, large_duration, zero_duration,
      large_time_point, zero_time_point]
  · set future := calculate_future_movements cfg or x u cur n with hfut
    have hlen : future.length = min target_aim_periods n := by
      rw [hfut]
      unfold calculate_future_movements
      rw [List.length_map, List.length_range]
    have hnonempty : future ≠ [] := by
      intro he
      rw [he] at hlen
      have : (1 : ℕ) ≤ min target_aim_periods n :=
        le_min (by norm_num [target_aim_periods]) hn
      simp at hlen
      omega
    have hall : ∀ m ∈ future, m.duration = cfg.aim_period := by
      intro m hm
      rw [hfut] at hm
      unfold calculate_future_movements at hm
      obtain ⟨i, _, he⟩ := List.mem_map.mp hm
      rw [← he]
    have hlast : (future.getLast hnonempty).duration = cfg.aim_period :=
      hall _ (List.getLast_mem hnonempty)
    unfold plan_edit
    have hsplit : plan.take (cursor + 1) ++ future =
        (plan.take (cursor + 1) ++ future.dropLast) ++ [future.getLast hnonempty] := by
      rw [List.append_assoc, List.dropLast_append_getLast hnonempty]
    rw [hsplit]
    exact trailing_one _ _ _ rfl (by rw [hlast]; exact hne)

/-- Configuration with a 2-second aim period, for which the controller's
num_future_movements is zero. -/
def cfg_c5 : aimer_config := ⟨10, 0, 1, 1, 2, 1, 10⟩

/-- C5 counterexample: with an aim period above one second the controller
requests zero future movements, calculate_future_movements returns the empty
list, and the planner edit performed with the cursor on the old terminal
search segment leaves the plan ending in TWO consecutive search segments. -/
theorem plan_two_trailing_searches_counterexample :
    num_future_movements cfg_c5 = 0 ∧
    calculate_future_movements cfg_c5 or_w1 (fun _ => 0) user_w1 idle_movement
      (num_future_movements cfg_c5) = [] ∧
    trailing_search_count (plan_edit 1 (initial_plan 1) 1 []) = 2 := by
  refine ⟨?_, ?_, ?_⟩
  · norm_num [num_future_movements, cfg_c5]
  · have h0 : num_future_movements cfg_c5 = 0 := by norm_num [num_future_movements, cfg_c5]
    rw [h0]
    rfl
  · unfold trailing_search_count plan_edit initial_plan copysign idle_movement
    norm_num [List.takeWhile_cons, large_duration, zero_duration,
      large_time_point, zero_time_point]


/-- The time a movement spends inside [early, late] (controller.cpp lines
111-113): clamp both endpoints into the movement's own interval and take the
difference. -/
def movement_overlap (m : single_movement) (early late : ℚ) : ℚ :=
  clamp late m.timestamp (m.timestamp + m.duration)
    - clamp early m.timestamp (m.timestamp + m.duration)

/-- The backward walk of dynamic_project_tracked_user (controller.cpp line
105): starting at the cursor, step backwards while the segment's timestamp
exceeds the early timestamp.  Walking below index 0 (undefined behaviour in
the C++) is totalised to stopping at 0; theorems assume the first segment
starts no later than `early`, under which the walk never reaches that case. -/
def walk_back (plan : List single_movement) (early : ℚ) : ℕ → ℕ
  | 0 => 0
  | i + 1 =>
      if early < (plan.getD (i + 1) idle_movement).timestamp then walk_back plan early i
      else i + 1

/-- The yaw-summing do-while of dynamic_project_tracked_user (controller.cpp
lines 108-117): add yaw_rate times the overlap of the current movement, then
continue with the next movement while its timestamp is before `late`.
Running off the end of the plan (undefined behaviour in the C++, prevented
there by the terminal search segment) is totalised to stopping. -/
def delta_yaw_loop (early late : ℚ) : List single_movement → ℚ
  | [] => 0
  | m :: rest =>
      m.yaw_rate * movement_overlap m early late +
        (match rest with
         | [] => 0
         | m' :: _ => if m'.timestamp < late then delta_yaw_loop early late rest else 0)

/-- controller::dynamic_project_tracked_user of src/watergun/controller.cpp
(lines 96-130): find the walk start, sum the turret's yaw over [early,
late], kinematically project the user, and subtract the delta yaw when
projecting forward in time (timestamp = late), else add it. -/
def dynamic_project_tracked_user (plan : List single_movement) (cursor : ℕ)
    (user : tracked_user) (timestamp : ℚ) : tracked_user :=
  let early := min user.timestamp timestamp
  let late := max user.timestamp timestamp
  let start := walk_back plan early cursor
  let delta_yaw := delta_yaw_loop early late (plan.drop start)
  let proj := project_tracked_user user timestamp
  if timestamp = late then
    ⟨proj.id, proj.timestamp, ⟨proj.com.x - delta_yaw, proj.com.y, proj.com.z⟩, proj.com_rate⟩
  else
    ⟨proj.id, proj.timestamp, ⟨proj.com.x + delta_yaw, proj.com.y, proj.com.z⟩, proj.com_rate⟩

/-- The specification's Δyaw: the sum over all plan segments of yaw_rate
times the segment's overlap with [early, late]. -/
def total_delta_yaw (plan : List single_movement) (early late : ℚ) : ℚ :=
  (plan.map fun m => m.yaw_rate * movement_overlap m early late).sum

/-- Unfolding equation: the summing loop on a single-element list. -/
theorem delta_yaw_loop_one (early late : ℚ) (m : single_movement) :
    delta_yaw_loop early late [m] = m.yaw_rate * movement_overlap m early late + 0 := rfl

/-- Unfolding equation: the summing loop on a list with at least two
elements checks the successor's timestamp against `late`. -/
theorem delta_yaw_loop_cons2 (early late : ℚ) (m m2 : single_movement)
    (rest2 : List single_movement) :
    delta_yaw_loop early late (m :: m2 :: rest2) =
      m.yaw_rate * movement_overlap m early late +
        (if m2.timestamp < late then delta_yaw_loop early late (m2 :: rest2) else 0) := rfl

/-- A movement lying entirely at or before `early` has zero overlap. -/
theorem overlap_zero_right (m : single_movement) (early late : ℚ)
    (hd : 0 ≤ m.duration) (hel : early ≤ late)
    (h : m.timestamp + m.duration ≤ early) : movement_overlap m early late = 0 := by
  unfold movement_overlap clamp
  have hab : m.timestamp ≤ m.timestamp + m.duration := by linarith
  rw [min_eq_right (by linarith : m.timestamp + m.duration ≤ late),
      min_eq_right h, max_eq_right hab]
  exact sub_self _

/-- A movement starting at or after `late` has zero overlap. -/
theorem overlap_zero_left (m : single_movement) (early late : ℚ)
    (hd : 0 ≤ m.duration) (hel : early ≤ late)
    (h : late ≤ m.timestamp) : movement_overlap m early late = 0 := by
  unfold movement_overlap clamp
  rw [min_eq_left (by linarith : late ≤ m.timestamp + m.duration),
      min_eq_left (by linarith : early ≤ m.timestamp + m.duration),
      max_eq_left h, max_eq_left (by linarith : early ≤ m.timestamp)]
  exact sub_self _

/-- The walk start never exceeds the cursor. -/
theorem walk_back_le (plan : List single_movement) (early : ℚ) (c : ℕ) :
    walk_back plan early c ≤ c := by
  induction c with
  | zero => exact le_refl 0
  | succ i ih =>
      unfold walk_back
      by_cases h : early < (plan.getD (i + 1) idle_movement).timestamp
      · rw [if_pos h]; exact le_trans ih (Nat.le_succ i)
      · rw [if_neg h]

/-- The walk stops either at index 0 or at a segment starting no later than
`early`. -/
theorem walk_back_ts (plan : List single_movement) (early : ℚ) (c : ℕ) :
    walk_back plan early c = 0 ∨
    (plan.getD (walk_back plan early c) idle_movement).timestamp ≤ early := by
  induction c with
  | zero => exact Or.inl rfl
  | succ i ih =>
      unfold walk_back
      by_cases h : early < (plan.getD (i + 1) idle_movement).timestamp
      · rw [if_pos h]; exact ih
      · rw [if_neg h]; exact Or.inr (le_of_not_lt h)

/-- On a sorted, non-overlapping list with non-negative durations, the
summing do-while computes the sum of yaw_rate times overlap over the whole
list: the segments it skips when it stops early all lie at or after `late`
and contribute zero overlap. -/
theorem delta_yaw_loop_sum (early late : ℚ) (hel : early ≤ late) :
    ∀ l : List single_movement,
    (l.Pairwise fun a b => a.timestamp + a.duration ≤ b.timestamp) →
    (∀ m ∈ l, 0 ≤ m.duration) →
    delta_yaw_loop early late l =
      (l.map fun m => m.yaw_rate * movement_overlap m early late).sum := by
  intro l
  induction l with
  | nil => intro _ _; rfl
  | cons m rest ih =>
      intro hpair hdur
      rcases List.pairwise_cons.mp hpair with ⟨hm, hpair2⟩
      cases rest with
      | nil => simp [delta_yaw_loop_one]
      | cons m2 rest2 =>
          rw [delta_yaw_loop_cons2, List.map_cons, List.sum_cons]
          by_cases hlt : m2.timestamp < late
          · rw [if_pos hlt, ih hpair2 (fun w hw => hdur w (List.mem_cons_of_mem m hw))]
          · rw [if_neg hlt]
            have hzero : ∀ w ∈ m2 :: rest2, w.yaw_rate * movement_overlap w early late = 0 := by
              intro w hw
              have hts : late ≤ w.timestamp := by
                rcases List.mem_cons.mp hw with he | hw2
                · subst he; exact le_of_not_lt hlt
                · rcases List.pairwise_cons.mp hpair2 with ⟨hm2, _⟩
                  have h1 : late ≤ m2.timestamp := le_of_not_lt hlt
                  have h2 : 0 ≤ m2.duration := hdur m2 (by simp)
                  have h3 := hm2 w hw2
                  linarith
              rw [overlap_zero_left w early late
                (hdur w (List.mem_cons_of_mem m hw)) hel hts, mul_zero]
            rw [List.sum_eq_zero (by
              intro q hq
              obtain ⟨w, hw, he⟩ := List.mem_map.mp hq
              rw [← he]; exact hzero w hw)]

/-- C6: under a well-formed plan (sorted, non-overlapping segments of
non-negative duration, whose first segment starts no later than both
timestamps, with a valid cursor), dynamic_project_tracked_user equals the
kinematic projection to the target timestamp with the yaw corrected by the
total Δyaw = Σ yaw_rate · overlap over all plan segments, subtracted when
projecting forward (timestamp = late) and added when projecting backward. -/
theorem dynamic_project_spec (plan : List single_movement) (cursor : ℕ)
    (u : tracked_user) (t : ℚ)
    (hdur : ∀ m ∈ plan, 0 ≤ m.duration)
    (hpair : plan.Pairwise fun a b => a.timestamp + a.duration ≤ b.timestamp)
    (hcursor : cursor < plan.length)
    (hfirst : (plan.getD 0 idle_movement).timestamp ≤ min u.timestamp t) :
    dynamic_project_tracked_user plan cursor u t =
      (if t = max u.timestamp t then
        ⟨(project_tracked_user u t).id, (project_tracked_user u t).timestamp,
         ⟨(project_tracked_user u t).com.x
            - total_delta_yaw plan (min u.timestamp t) (max u.timestamp t),
          (project_tracked_user u t).com.y, (project_tracked_user u t).com.z⟩,
         (project_tracked_user u t).com_rate⟩
      else
        ⟨(project_tracked_user u t).id, (project_tracked_user u t).timestamp,
         ⟨(project_tracked_user u t).com.x
            + total_delta_yaw plan (min u.timestamp t) (max u.timestamp t),
          (project_tracked_user u t).com.y, (project_tracked_user u t).com.z⟩,
         (project_tracked_user u t).com_rate⟩) := by
  have hel : min u.timestamp t ≤ max u.timestamp t := min_le_max
  set early := min u.timestamp t with hearly
  set late := max u.timestamp t with hlate
  set start := walk_back plan early cursor with hstart
  have hstart_le : start ≤ cursor := walk_back_le plan early cursor
  have hstart_lt : start < plan.length := lt_of_le_of_lt hstart_le hcursor
  have hts_start : (plan.get ⟨start, hstart_lt⟩).timestamp ≤ early := by
    have hgd : plan.getD start idle_movement = plan.get ⟨start, hstart_lt⟩ :=
      List.getD_eq_get plan idle_movement hstart_lt
    rcases walk_back_ts plan early cursor with h0 | hle
    · rw [← hstart] at h0
      have h0lt : 0 < plan.length := lt_of_le_of_lt (Nat.zero_le start) hstart_lt
      have hg0 : plan.getD 0 idle_movement = plan.get ⟨0, h0lt⟩ :=
        List.getD_eq_get plan idle_movement h0lt
      rw [hg0] at hfirst
      have he : plan.get ⟨start, hstart_lt⟩ = plan.get ⟨0, h0lt⟩ := by
        congr 1
        exact Fin.ext h0
      rw [he]
      exact hfirst
    · rw [← hstart, hgd] at hle
      exact hle
  -- decompose the plan around the walk start
  have hsplit : plan.take start ++ plan.drop start = plan := List.take_append_drop start plan
  have hpair2 : (plan.take start ++ plan.drop start).Pairwise
      (fun a b => a.timestamp + a.duration ≤ b.timestamp) := by
    rw [hsplit]; exact hpair
  rcases List.pairwise_append.mp hpair2 with ⟨hp1, hp2, hcross⟩
  have hdrop_head : plan.drop start = plan.get ⟨start, hstart_lt⟩ :: plan.drop (start + 1) :=
    List.drop_eq_get_cons hstart_lt
  have hhead_mem : plan.get ⟨start, hstart_lt⟩ ∈ plan.drop start := by
    rw [hdrop_head]; exact List.mem_cons_self _ _
  -- the segments before the walk start contribute zero overlap
  have htake_zero : ∀ q ∈ (plan.take start).map
      (fun m => m.yaw_rate * movement_overlap m early late), q = 0 := by
    intro q hq
    obtain ⟨m, hm, he⟩ := List.mem_map.mp hq
    have hr := hcross m hm _ hhead_mem
    have hmd : 0 ≤ m.duration := hdur m (List.take_subset start plan hm)
    rw [← he, overlap_zero_right m early late hmd hel (le_trans hr hts_start), mul_zero]
  -- the loop over the suffix computes the suffix sum
  have hloop : delta_yaw_loop early late (plan.drop start) =
      ((plan.drop start).map fun m => m.yaw_rate * movement_overlap m early late).sum :=
    delta_yaw_loop_sum early late hel (plan.drop start) hp2
      (fun m hm => hdur m (List.drop_subset start plan hm))
  -- the total over the whole plan is the suffix sum
  have htotal2 : total_delta_yaw plan early late =
      ((plan.drop start).map fun m => m.yaw_rate * movement_overlap m early late).sum := by
    unfold total_delta_yaw
    conv_lhs => rw [← hsplit]
    rw [List.map_append, List.sum_append, List.sum_eq_zero htake_zero, zero_add]
  have htotal : delta_yaw_loop early late (plan.drop start) = total_delta_yaw plan early late :=
    hloop.trans htotal2.symm
  unfold dynamic_project_tracked_user
  dsimp only
  rw [← hearly, ← hlate, ← hstart, htotal]

/-- The S5 plan: one active segment of duration 0.1 s with yaw rate 1. -/
def plan_s5 : List single_movement := [⟨1/10, 0, 1, 0⟩]

/-- The S5 user: recorded at t = 0 with com.yaw = 0.5 and zero rates. -/
def user_s5 : tracked_user := ⟨1, 0, ⟨1/2, 0, 5⟩, ⟨0, 0, 0⟩⟩

/-- Witness for C6: the hypotheses hold for the S5 plan and user, the
conclusion is established by the theorem, and the reprojected yaw at
t = 0.1 evaluates to 0.4. -/
theorem dynamic_project_spec_witness :
    ((∀ m ∈ plan_s5, 0 ≤ m.duration) ∧
     (plan_s5.Pairwise fun a b => a.timestamp + a.duration ≤ b.timestamp) ∧
     0 < plan_s5.length ∧
     (plan_s5.getD 0 idle_movement).timestamp ≤ min user_s5.timestamp (1/10)) ∧
    dynamic_project_tracked_user plan_s5 0 user_s5 (1/10) =
      (if (1/10 : ℚ) = max user_s5.timestamp (1/10) then
        ⟨(project_tracked_user user_s5 (1/10)).id, (project_tracked_user user_s5 (1/10)).timestamp,
         ⟨(project_tracked_user user_s5 (1/10)).com.x
            - total_delta_yaw plan_s5 (min user_s5.timestamp (1/10)) (max user_s5.timestamp (1/10)),
          (project_tracked_user user_s5 (1/10)).com.y, (project_tracked_user user_s5 (1/10)).com.z⟩,
         (project_tracked_user user_s5 (1/10)).com_rate⟩
      else
        ⟨(project_tracked_user user_s5 (1/10)).id, (project_tracked_user user_s5 (1/10)).timestamp,
         ⟨(project_tracked_user user_s5 (1/10)).com.x
            + total_delta_yaw plan_s5 (min user_s5.timestamp (1/10)) (max user_s5.timestamp (1/10)),
          (project_tracked_user user_s5 (1/10)).com.y, (project_tracked_user user_s5 (1/10)).com.z⟩,
         (project_tracked_user user_s5 (1/10)).com_rate⟩) ∧
    (dynamic_project_tracked_user plan_s5 0 user_s5 (1/10)).com.x = 2/5 := by
  have hdur : ∀ m ∈ plan_s5, 0 ≤ m.duration := by
    intro m hm
    have he : m = (⟨1/10, 0, 1, 0⟩ : single_movement) := by simpa [plan_s5] using hm
    rw [he]
    norm_num
  refine ⟨⟨hdur, by simp [plan_s5], by simp [plan_s5], by norm_num [plan_s5, user_s5]⟩, ?_, ?_⟩
  · exact dynamic_project_spec plan_s5 0 user_s5 (1/10) hdur
      (by simp [plan_s5]) (by simp [plan_s5]) (by norm_num [plan_s5, user_s5])
  · norm_num [dynamic_project_tracked_user, walk_back, delta_yaw_loop,
      movement_overlap, clamp, project_tracked_user, vector3d.add, vector3d.smul,
      plan_s5, user_s5]


/-- The pulse do-while of gpio_stepper::stepper_thread_function
(stepper.cpp lines 429-430):
`do make_step; while ( --required_steps != 0 && stepper_cv.wait_for ( lock,
period - min_step_period ) == std::cv_status::no_timeout );`.
The result counts the make_step calls.  Each entry of `waits` is the outcome
of one condition-variable wait, `true` for no_timeout (the wait was
notified), `false` for timeout; an exhausted outcome list stops the loop. -/
def pulse_loop (steps : ℤ) (waits : List Bool) : ℕ :=
  match waits with
  | [] => 1
  | w :: rest =>
      if steps - 1 = 0 then 1
      else if w then 1 + pulse_loop (steps - 1) rest
      else 1

/-- C8: the code keeps pulsing exactly while the wait returns no_timeout
(i.e. while it is notified) and breaks out to recompute on a timeout —
the reverse of the claim.  With 3 required steps: two timed-out waits leave
only 1 pulse emitted, while two notified waits let all 3 pulses out. -/
theorem pulse_loop_inverted :
    pulse_loop 3 [false, false] = 1 ∧ pulse_loop 3 [true, true] = 3 := by
  constructor <;> rfl

/-- The microstep numbers available before the constructor's remove_if
filtering (include/watergun/stepper.h line 114). -/
def msn_all : List ℕ := [0, 1, 2, 3, 4, 5]

/-- The state of a stepper_base after construction: configuration members
and the filtered list of available microstep numbers. -/
structure stepper_base_state where
  step_size : ℚ
  min_step_freq : ℚ
  step_pin : ℤ
  dir_pin : ℤ
  microstep_pin_0 : ℤ
  microstep_pin_1 : ℤ
  microstep_pin_2 : ℤ
  sleep_pin : ℤ
  availible_microstep_numbers : List ℕ
deriving DecidableEq, Repr

/-- One remove_if pass of the stepper_base constructor (stepper.cpp lines
55-60): a pin value of -1 removes the microstep numbers with the bit set,
-2 removes those with the bit clear, and a real pin removes nothing. -/
def filter_microsteps (pin : ℤ) (bit : ℕ) (l : List ℕ) : List ℕ :=
  if pin = -1 then l.filter fun m => decide (m &&& bit = 0)
  else if pin = -2 then l.filter fun m => decide (m &&& bit ≠ 0)
  else l

/-- watergun::stepper_base::stepper_base of src/watergun/stepper.cpp (lines
36-65).  The C++ mem-initializer list reads `step_size { step_size }`: the
member is initialized from itself, i.e. from its indeterminate pre-existing
value, not from the `_step_size` argument; the explicit `indeterminate`
parameter models that indeterminate value.  The constructor throws when the
step pin or dir pin is negative, and filters the available microstep
numbers according to the three microstep-select pins. -/
def stepper_base_ctor (indeterminate : ℚ) (SS MSF : ℚ) (SP DP MS0 MS1 MS2 SLP : ℤ) :
    Except String stepper_base_state :=
  let _ := SS
  if SP < 0 then Except.error "Stepper step pin cannot be always off"
  else if DP < 0 then Except.error "Stepper dir pin cannot be always off"
  else
    let a0 := filter_microsteps MS0 1 msn_all
    let a1 := filter_microsteps MS1 2 a0
    let a2 := filter_microsteps MS2 4 a1
    Except.ok ⟨indeterminate, MSF, SP, DP, MS0, MS1, MS2, SLP, a2⟩

/-- C10: the constructed member step_size does not equal the `_step_size`
argument: with pre-existing (indeterminate) memory content 0 and
_step_size = 0.0314 rad, the constructed state carries step_size = 0, so
every later microstep computation operates on garbage, not on the
configured step size. -/
theorem stepper_base_step_size_bug :
    stepper_base_ctor 0 (157/5000) 1000 1 2 (-1) (-1) (-1) (-1) =
      Except.ok ⟨0, 1000, 1, 2, -1, -1, -1, -1, [0]⟩ ∧
    (0 : ℚ) ≠ 157/5000 := by
  constructor
  · rfl
  · norm_num


/-- Witness for C5: with one requested future movement and a 1/30 s aim
period, the hypotheses hold and the theorem yields trailing search count 1
for both the construction plan and an edited plan. -/
theorem plan_ends_with_one_search_witness :
    ((1 : ℕ) ≤ 1 ∧ cfg_w1.aim_period ≠ large_duration) ∧
    (trailing_search_count (initial_plan 1) = 1 ∧
     trailing_search_count
       (plan_edit 1 (initial_plan 1) 1
         (calculate_future_movements cfg_w1 or_w1 (fun _ => 0) user_w1 idle_movement 1)) = 1) :=
  ⟨⟨le_refl 1, by norm_num [cfg_w1, large_duration]⟩,
   plan_ends_with_one_search cfg_w1 or_w1 1 (fun _ => 0) user_w1 idle_movement 1
     (le_refl 1) (by norm_num [cfg_w1, large_duration]) (initial_plan 1) 1⟩

/-- Witness for C7: the index hypothesis holds at i = 0, n = 1, and the
record-shape conclusion is established there by the theorem. -/
theorem calculate_future_movements_fields_witness :
    (0 < min target_aim_periods 1) ∧
    (calculate_future_movements cfg_w1 or_w1 (fun _ => 0) user_w1 idle_movement 1)[0]? =
      some ⟨cfg_w1.aim_period, user_w1.timestamp + cfg_w1.aim_period * ((0 : ℕ) : ℚ), (fun _ => (0 : ℚ)) 0,
        idle_movement.ending_pitch +
          ((calculate_aim cfg_w1 or_w1 (project_tracked_user user_w1
              (user_w1.timestamp + cfg_w1.aim_period * (target_aim_periods : ℚ)))).pitch
            - idle_movement.ending_pitch) * (((0 : ℕ) : ℚ) + 1) / (target_aim_periods : ℚ)⟩ :=
  ⟨by norm_num [target_aim_periods],
   calculate_future_movements_fields cfg_w1 or_w1 (fun _ => 0) user_w1 idle_movement 1 0
     (by norm_num [target_aim_periods])⟩

end watergun
